import Mathlib

/-!
Shallow embedding of the contact-book program (`contact_book.py` plus the
`add_contact` command handler of `main.py`) and proofs about it.

Modelling conventions:
  * Python strings are Lean `String`s (sequences of Unicode code points, as in
    CPython); `len` is `String.length` (code-point count in both).
  * Exceptions are explicit: a method that can raise returns `Except PyErr α`;
    a mutating method on an object returns the pair (raised-or-returned value,
    object state after the call), since a Python method mutates in place and an
    exception leaves the partial state behind.
  * `dict` (the backing store of `AddressBook`, a `UserDict`) is an association
    list in insertion order with the usual dict semantics: assignment to an
    existing key overwrites in place, assignment to a fresh key appends,
    deletion removes the entry.
  * `datetime.today()` is a parameter `today : PyDate` of
    `get_upcoming_birthdays` instead of ambient state.
-/

/-- Characters stripped by Python `str.strip()`: ASCII whitespace plus the
one-byte Unicode whitespace code points.  Python also strips the wider Unicode
space category; those characters do not occur in this development. -/
def pyIsSpace (c : Char) : Bool :=
  c = ' ' || c = '\t' || c = '\n' || c = '\x0b' || c = '\x0c' || c = '\r' ||
  c = '\x85' || c = '\xa0'

/-- List form of Python `str.strip()`: drop leading and trailing whitespace. -/
def pyStripList (l : List Char) : List Char :=
  ((l.dropWhile pyIsSpace).reverse.dropWhile pyIsSpace).reverse

/-- Models Python `value.strip()`. -/
def pyStrip (s : String) : String :=
  String.mk (pyStripList s.data)

/-- Models Python `str.isdigit` on one character.  Python accepts every
character with the Unicode digit property: the ASCII digits and also
non-ASCII digit characters such as the superscripts and the Arabic-Indic
digits; the table here covers the ASCII digits plus the non-ASCII digit
characters used in this development. -/
def pyIsDigitChar (c : Char) : Bool :=
  c.isDigit ||
  c = '¹' || c = '²' || c = '³' ||
  c = '٠' || c = '١' || c = '٢' || c = '٣' || c = '٤' ||
  c = '٥' || c = '٦' || c = '٧' || c = '٨' || c = '٩'

/-- Models Python `value.isdigit()`: non-empty and every character a digit. -/
def pyStrIsDigit (s : String) : Bool :=
  !s.data.isEmpty && s.data.all pyIsDigitChar

/-- Python exception values raised by the program (`ValueError`, `KeyError`,
`IndexError`), each carrying its message.  Note `str(KeyError(m))` in Python
wraps `m` in repr quotes; the model keeps the raw message. -/
inductive PyErr where
  | valueError (msg : String)
  | keyError (msg : String)
  | indexError (msg : String)
deriving DecidableEq

/-- Proleptic-Gregorian calendar date as held by a Python
`datetime.date`/`datetime.datetime` (the program never uses the time part). -/
structure PyDate where
  year : Nat
  month : Nat
  day : Nat
deriving DecidableEq

/-- Leap-year test of the Gregorian calendar (Python `calendar.isleap` /
`datetime`'s internal `_is_leap`). -/
def isLeap (y : Nat) : Bool :=
  y % 4 = 0 && (y % 100 ≠ 0 || y % 400 = 0)

/-- Number of days in a month (Python `datetime`'s `_days_in_month`); `0` for
a month outside `1..12` (such a month never reaches date construction). -/
def daysInMonth (y m : Nat) : Nat :=
  if m = 1 then 31
  else if m = 2 then (if isLeap y then 29 else 28)
  else if m = 3 then 31
  else if m = 4 then 30
  else if m = 5 then 31
  else if m = 6 then 30
  else if m = 7 then 31
  else if m = 8 then 31
  else if m = 9 then 30
  else if m = 10 then 31
  else if m = 11 then 30
  else if m = 12 then 31
  else 0

/-- Days in the year before the first of the given month (`leap` tells whether
the year is leap); mirrors `_days_before_month` of Python `datetime`. -/
def daysBeforeMonth (leap : Bool) (m : Nat) : Nat :=
  if m = 1 then 0
  else if m = 2 then 31
  else if m = 3 then 59 + (if leap then 1 else 0)
  else if m = 4 then 90 + (if leap then 1 else 0)
  else if m = 5 then 120 + (if leap then 1 else 0)
  else if m = 6 then 151 + (if leap then 1 else 0)
  else if m = 7 then 181 + (if leap then 1 else 0)
  else if m = 8 then 212 + (if leap then 1 else 0)
  else if m = 9 then 243 + (if leap then 1 else 0)
  else if m = 10 then 273 + (if leap then 1 else 0)
  else if m = 11 then 304 + (if leap then 1 else 0)
  else if m = 12 then 334 + (if leap then 1 else 0)
  else 0

/-- Days before January 1 of the given year (`_days_before_year` of Python
`datetime`): day ordinal arithmetic of the proleptic Gregorian calendar. -/
def daysBeforeYear (y : Nat) : Nat :=
  365 * (y - 1) + (y - 1) / 4 - (y - 1) / 100 + (y - 1) / 400

/-- Models Python `date.toordinal()`: January 1 of year 1 is ordinal 1. -/
def toOrdinal (d : PyDate) : Nat :=
  daysBeforeYear d.year + daysBeforeMonth (isLeap d.year) d.month + d.day

/-- Models Python `date.weekday()`: Monday is 0, ..., Sunday is 6. -/
def weekday (d : PyDate) : Nat :=
  (toOrdinal d + 6) % 7

/-- Lexicographic date comparison, as Python compares `date` objects. -/
def pyDateLt (a b : PyDate) : Bool :=
  a.year < b.year ||
  (a.year = b.year && (a.month < b.month ||
    (a.month = b.month && a.day < b.day)))

/-- Well-formedness of a `PyDate`: exactly the states a Python `date` object
can hold (the `date` constructor validates year, month and day). -/
def ValidDate (d : PyDate) : Prop :=
  1 ≤ d.year ∧ 1 ≤ d.month ∧ d.month ≤ 12 ∧
  1 ≤ d.day ∧ d.day ≤ daysInMonth d.year d.month

instance (d : PyDate) : Decidable (ValidDate d) := by
  unfold ValidDate; infer_instance

/-- Successor date: models `d + timedelta(days=1)` on a valid Python date. -/
def nextDay (d : PyDate) : PyDate :=
  if d.day < daysInMonth d.year d.month then ⟨d.year, d.month, d.day + 1⟩
  else if d.month < 12 then ⟨d.year, d.month + 1, 1⟩
  else ⟨d.year + 1, 1, 1⟩

/-- Models Python `date.replace(year=y)`: rebuilds the date through the
validating `date` constructor, so February 29 moved to a non-leap year (or a
year outside `1..9999`) raises `ValueError`. -/
def dateReplaceYear (d : PyDate) (y : Nat) : Except PyErr PyDate :=
  if 1 ≤ y ∧ y ≤ 9999 ∧ 1 ≤ d.day ∧ d.day ≤ daysInMonth y d.month then
    .ok ⟨y, d.month, d.day⟩
  else
    .error (.valueError "day is out of range for month")

/-- Numeric value of a digit string, as `int()` reads the digits captured by
`strptime` (most significant first). -/
def digitsToNat (l : List Char) : Nat :=
  l.foldl (fun a c => 10 * a + (c.toNat - 48)) 0

/-- Left-pad with `0` to two characters: the `%d` and `%m` directives of
`strftime`. -/
def pad2 (n : Nat) : String :=
  if n < 10 then "0" ++ toString n else toString n

/-- Models `date.strftime("%d.%m.%Y")` (glibc behaviour: `%Y` prints the year
without padding, which is four digits for every year in `1000..9999`). -/
def strftimeDMY (d : PyDate) : String :=
  pad2 d.day ++ "." ++ pad2 d.month ++ "." ++ toString d.year

/-- Split a character list at every `.` (the literal separators of the
`"%d.%m.%Y"` format); the result is never empty. -/
def splitOnDot : List Char → List (List Char)
  | [] => [[]]
  | c :: cs =>
    if c = '.' then [] :: splitOnDot cs
    else
      match splitOnDot cs with
      | [] => [[c]]
      | h :: t => (c :: h) :: t

/-- Joins segments with `.`; inverse of `splitOnDot`. -/
def joinDots : List (List Char) → List Char
  | [] => []
  | [a] => a
  | a :: b :: t => a ++ '.' :: joinDots (b :: t)

/-- Field conditions of CPython `_strptime` for the format `"%d.%m.%Y"`: the
day matches the regex `3[01]|[12]\d|0[1-9]|[1-9]` (one or two digits, value
1..31), the month matches `1[0-2]|0[1-9]|[1-9]` (one or two digits, value
1..12), the year matches `\d\d\d\d` (exactly four digits), and the
`datetime` constructor then accepts the triple (year at least 1, day within
the month, leap years included). -/
def dmyFieldsOK (dC mC yC : List Char) : Bool :=
  dC.all Char.isDigit && mC.all Char.isDigit && yC.all Char.isDigit &&
  decide (1 ≤ dC.length) && decide (dC.length ≤ 2) &&
  decide (1 ≤ mC.length) && decide (mC.length ≤ 2) &&
  decide (yC.length = 4) &&
  decide (1 ≤ digitsToNat dC) && decide (digitsToNat dC ≤ 31) &&
  decide (1 ≤ digitsToNat mC) && decide (digitsToNat mC ≤ 12) &&
  decide (1 ≤ digitsToNat yC) &&
  decide (digitsToNat dC ≤ daysInMonth (digitsToNat yC) (digitsToNat mC))

/-- Models `datetime.strptime(s, "%d.%m.%Y")` for ASCII input, returning the
parsed calendar date: the whole string must be day `.` month `.` year with
the fields as in `dmyFieldsOK` (CPython compiles the format to a regex and
rejects unconverted leading or trailing data).  CPython's `\d` additionally
matches non-ASCII Unicode decimal digits; that part is outside this model,
which is why theorems about it restrict to ASCII strings. -/
def strptimeDMY (s : String) : Option PyDate :=
  match splitOnDot s.data with
  | [dS, mS, yS] =>
    if dmyFieldsOK dS mS yS then
      some ⟨digitsToNat yS, digitsToNat mS, digitsToNat dS⟩
    else none
  | _ => none

/-- Models `Name.__init__`: rejects an empty or whitespace-only string with
`ValueError`, stores the stripped value. -/
def Name.init (value : String) : Except PyErr String :=
  if value = "" ∨ pyStrip value = "" then
    .error (.valueError "Ім\x27я контакту не може бути порожнім.")
  else
    .ok (pyStrip value)

/-- Models `Phone.__init__`: `ValueError` unless `value.isdigit()` holds and
the length is exactly 10; stores the string unchanged. -/
def Phone.init (value : String) : Except PyErr String :=
  if ¬ (pyStrIsDigit value = true) ∨ value.length ≠ 10 then
    .error (.valueError "Номер телефону повинен складатися з 10 цифр.")
  else
    .ok value

/-- Models `Birthday.__init__`: parses with
`datetime.strptime(value, "%d.%m.%Y")`, re-raising any parse failure as
`ValueError("Invalid date format. Use DD.MM.YYYY")`; on success stores the raw
string (the `value` field) and the parsed date (the `date` field). -/
def Birthday.init (value : String) : Except PyErr (String × PyDate) :=
  match strptimeDMY value with
  | some d => .ok (value, d)
  | none => .error (.valueError "Invalid date format. Use DD.MM.YYYY")

/-- State of a Python `Record` object: the stored `Name.value`, the list of
`Phone.value` strings (a `Phone` object holds nothing but its value), and the
optional `Birthday` as (raw string, parsed date). -/
structure Record where
  name : String
  phones : List String
  birthday : Option (String × PyDate)
deriving DecidableEq

/-- Models `Record(name)`: builds the `Name` (which may raise) and starts with
no phones and no birthday. -/
def Record.create (name : String) : Except PyErr Record :=
  match Name.init name with
  | .ok nm => .ok ⟨nm, [], none⟩
  | .error e => .error e

/-- Models `Record.add_phone`: validate through `Phone`, then append; on
`ValueError` the record is untouched. -/
def Record.add_phone (r : Record) (phone_number : String) :
    Except PyErr Unit × Record :=
  match Phone.init phone_number with
  | .ok v => (.ok (), { r with phones := r.phones ++ [v] })
  | .error e => (.error e, r)

/-- Models `Record.find_phone`: first phone with the given value. -/
def Record.find_phone (r : Record) (phone_number : String) : Option String :=
  r.phones.find? (fun p => p = phone_number)

/-- Removes the first occurrence of a value, as `list.remove` does with the
object returned by `find_phone`. -/
def eraseFirst : List String → String → List String
  | [], _ => []
  | x :: xs, v => if x = v then xs else x :: eraseFirst xs v

/-- Models `Record.remove_phone`: `ValueError` if the value is absent,
otherwise removes the first match. -/
def Record.remove_phone (r : Record) (phone_number : String) :
    Except PyErr Unit × Record :=
  match r.find_phone phone_number with
  | some _ => (.ok (), { r with phones := eraseFirst r.phones phone_number })
  | none => (.error (.valueError "Номер телефону не знайдено."), r)

/-- Models `Record.edit_phone`: scan for the first phone equal to the old
value; if found, build `Phone(new)` (which may raise, leaving the list as it
was) and replace it in place; if no match, `ValueError`. -/
def Record.edit_phone (r : Record) (old_phone_number new_phone_number : String) :
    Except PyErr Unit × Record :=
  match r.phones.findIdx? (fun p => p = old_phone_number) with
  | some i =>
    match Phone.init new_phone_number with
    | .ok v => (.ok (), { r with phones := r.phones.set i v })
    | .error e => (.error e, r)
  | none =>
    (.error (.valueError "Номер телефону для редагування не знайдено."), r)

/-- Models `Record.add_birthday`: validates through `Birthday` and overwrites
any existing birthday; on `ValueError` the record is untouched. -/
def Record.add_birthday (r : Record) (birthday : String) :
    Except PyErr Unit × Record :=
  match Birthday.init birthday with
  | .ok b => (.ok (), { r with birthday := some b })
  | .error e => (.error e, r)

/-- Backing store of `AddressBook` (a `UserDict`): a string-keyed dict in
insertion order. -/
abbrev AddressBook := List (String × Record)

/-- Python dict assignment `data[k] = v`: overwrite in place if the key
exists, else append. -/
def dictInsert : AddressBook → String → Record → AddressBook
  | [], k, v => [(k, v)]
  | (k0, v0) :: t, k, v =>
    if k0 = k then (k0, v) :: t else (k0, v0) :: dictInsert t k v

/-- In-place mutation of the record object stored under a key (the effect on
the dict of mutating the object that `find` returned). -/
def dictSet : AddressBook → String → Record → AddressBook
  | [], _, _ => []
  | (k0, v0) :: t, k, v =>
    (if k0 = k then (k0, v) else (k0, v0)) :: dictSet t k v

/-- Python `del data[k]`: remove the entry with the key. -/
def dictRemove : AddressBook → String → AddressBook
  | [], _ => []
  | (k0, v0) :: t, k => if k0 = k then t else (k0, v0) :: dictRemove t k

/-- Models `AddressBook.add_record`: stores the record under its own name. -/
def AddressBook.add_record (b : AddressBook) (r : Record) : AddressBook :=
  dictInsert b r.name r

/-- Models `AddressBook.find` (`self.data.get(name)`). -/
def AddressBook.find : AddressBook → String → Option Record
  | [], _ => none
  | (k, v) :: t, name => if k = name then some v else AddressBook.find t name

/-- Models `AddressBook.delete`: `KeyError` when the name is absent. -/
def AddressBook.delete (b : AddressBook) (name : String) :
    Except PyErr Unit × AddressBook :=
  match AddressBook.find b name with
  | some _ => (.ok (), dictRemove b name)
  | none => (.error (.keyError "Контакт не знайдено."), b)

/-- Output entry of `get_upcoming_birthdays`: the dict with keys `name` and
`congratulation_date`. -/
structure UBEntry where
  name : String
  congratulation_date : String
deriving DecidableEq

/-- Weekend shift applied by `get_upcoming_birthdays`: Saturday (weekday 5)
moves 2 days forward, Sunday (weekday 6) moves 1 day forward, otherwise the
date is kept. -/
def congratsDate (d : PyDate) : PyDate :=
  if weekday d = 5 then nextDay (nextDay d)
  else if weekday d = 6 then nextDay d
  else d

/-- Year projection of `get_upcoming_birthdays`: replace the birthday's year
with the reference year (the `date.replace` call that can raise), and when
that date is strictly before today replace with the next year instead (the
second `date.replace` call, which can also raise). -/
def projectBirthday (today : PyDate) (bd : PyDate) : Except PyErr PyDate :=
  match dateReplaceYear bd today.year with
  | .error e => .error e
  | .ok b1 =>
    if pyDateLt b1 today then dateReplaceYear bd (today.year + 1)
    else .ok b1

/-- One iteration of the `get_upcoming_birthdays` loop on one record: skip a
record without a birthday, project the birthday (possibly raising), and emit
the weekend-shifted formatted entry when the day difference lies in
`[0, 7]`. -/
def ubStep (today : PyDate) (r : Record) : Except PyErr (Option UBEntry) :=
  match r.birthday with
  | none => .ok none
  | some (_, bd) =>
    match projectBirthday today bd with
    | .error e => .error e
    | .ok bty =>
      if 0 ≤ (toOrdinal bty : Int) - (toOrdinal today : Int) ∧
          (toOrdinal bty : Int) - (toOrdinal today : Int) ≤ 7 then
        .ok (some ⟨r.name, strftimeDMY (congratsDate bty)⟩)
      else .ok none

/-- The `get_upcoming_birthdays` loop over the records in dict order; a raise
at any record aborts the whole call (records are processed in order, so the
first raising record wins). -/
def ubGo (today : PyDate) : List Record → Except PyErr (List UBEntry)
  | [] => .ok []
  | r :: rest =>
    match ubStep today r with
    | .error e => .error e
    | .ok head =>
      match ubGo today rest with
      | .error e => .error e
      | .ok tail => .ok (head.toList ++ tail)

/-- Models `AddressBook.get_upcoming_birthdays`, with `datetime.today()`
passed in as `today`. -/
def AddressBook.get_upcoming_birthdays (b : AddressBook) (today : PyDate) :
    Except PyErr (List UBEntry) :=
  ubGo today (b.map Prod.snd)

/-- Translates the `input_error` decorator of `main.py`: a raised
`ValueError`/`KeyError` becomes a message prefixed accordingly, a raised
`IndexError` becomes a fixed message. -/
def inputErrorWrap (r : Except PyErr String) : String :=
  match r with
  | .ok s => s
  | .error (.valueError m) => "Помилка значення: " ++ m
  | .error (.indexError _) => "Недостатньо аргументів для команди."
  | .error (.keyError m) => "Помилка ключа: " ++ m

/-- Body of `add_contact` of `main.py` before the decorator: raise
`IndexError` on fewer than two arguments; look the name up; if absent,
create the record (which may raise on a bad name) and insert it into the book
first; then, if the phone argument is non-empty, run `add_phone` on the very
record object that is (now) stored in the book — so a phone validation
failure happens after the empty record was already inserted. -/
def addContactInner (args : List String) (book : AddressBook) :
    Except PyErr String × AddressBook :=
  match args with
  | name :: phone :: _ =>
    (match AddressBook.find book name with
     | some record =>
       if phone ≠ "" then
         match record.add_phone phone with
         | (.ok _, r1) => (.ok "Contact updated.", dictSet book name r1)
         | (.error e, r1) => (.error e, dictSet book name r1)
       else (.ok "Contact updated.", book)
     | none =>
       match Record.create name with
       | .error e => (.error e, book)
       | .ok r0 =>
         let b1 := AddressBook.add_record book r0
         if phone ≠ "" then
           match r0.add_phone phone with
           | (.ok _, r1) => (.ok "Contact added.", dictSet b1 r0.name r1)
           | (.error e, r1) => (.error e, dictSet b1 r0.name r1)
         else (.ok "Contact added.", b1))
  | _ => (.error (.indexError "Потрібно вказати ім\x27я та телефон."), book)

/-- Models `add_contact` of `main.py`, decorator included: the book state
after the call together with the returned message. -/
def add_contact (args : List String) (book : AddressBook) :
    String × AddressBook :=
  let r := addContactInner args book
  (inputErrorWrap r.1, r.2)

/-- One in-place mutation step on a record object, through any of the four
mutating methods (each possibly failing, in which case the state is the
method's error-path state). -/
def RecStep (r r1 : Record) : Prop :=
  (∃ p, r1 = (r.add_phone p).2) ∨
  (∃ p, r1 = (r.remove_phone p).2) ∨
  (∃ p q, r1 = (r.edit_phone p q).2) ∨
  (∃ s, r1 = (r.add_birthday s).2)

/-- Record states reachable from `Record(name)` by the mutating methods. -/
inductive ReachableRec : Record → Prop
  | create (raw : String) (r : Record) :
      Record.create raw = .ok r → ReachableRec r
  | step (r r1 : Record) : ReachableRec r → RecStep r r1 → ReachableRec r1

/-- Book states reachable from the empty `AddressBook()` by `add_record`,
`delete`, and mutation of a record reached through `find`. -/
inductive ReachableBook : AddressBook → Prop
  | empty : ReachableBook []
  | add_record (b : AddressBook) (r : Record) :
      ReachableBook b → ReachableRec r →
      ReachableBook (AddressBook.add_record b r)
  | delete (b : AddressBook) (name : String) :
      ReachableBook b → ReachableBook (AddressBook.delete b name).2
  | mutate (b : AddressBook) (name : String) (r r1 : Record) :
      ReachableBook b → AddressBook.find b name = some r → RecStep r r1 →
      ReachableBook (dictSet b name r1)

/-- Selection predicate of claim C3, following the spec's words: a record is
due a greeting exactly when it has a birthday whose month/day projected onto
the reference year — onto the next year when that projection is strictly
before the reference date — lies at most 7 days ahead. -/
def specIncludes (today : PyDate) (r : Record) : Bool :=
  match r.birthday with
  | none => false
  | some (_, bd) =>
    let p1 : PyDate := ⟨today.year, bd.month, bd.day⟩
    let bty : PyDate :=
      if pyDateLt p1 today then ⟨today.year + 1, bd.month, bd.day⟩ else p1
    let du : Int := (toOrdinal bty : Int) - (toOrdinal today : Int)
    decide (0 ≤ du ∧ du ≤ 7)

/-- Acceptance predicate of claim C5 as literally stated: exactly 10
characters, each an ASCII decimal digit. -/
def specPhoneAccepts (s : String) : Bool :=
  s.length = 10 && s.data.all Char.isDigit

/-- Acceptance predicate of claim C6 as literally stated: two-digit day,
two-digit month, four-digit year, separated by dots, forming a real calendar
date. -/
def specBirthdayAccepts (s : String) : Bool :=
  match splitOnDot s.data with
  | [dS, mS, yS] =>
    dS.all Char.isDigit && mS.all Char.isDigit && yS.all Char.isDigit &&
    decide (dS.length = 2) && decide (mS.length = 2) &&
    decide (yS.length = 4) &&
    decide (1 ≤ digitsToNat dS) && decide (1 ≤ digitsToNat mS) &&
    decide (digitsToNat mS ≤ 12) && decide (1 ≤ digitsToNat yS) &&
    decide (digitsToNat dS ≤ daysInMonth (digitsToNat yS) (digitsToNat mS))
  | _ => false

/-- ASCII-only strings: the fragment on which the digit matching of the model
coincides with CPython's. -/
def isAsciiStr (s : String) : Bool :=
  s.data.all (fun c => c.toNat < 128)

/-! Theorems.  First shared helper lemmas, then one theorem per claim (with
witness or counterexample theorems where required). -/

/-- Phone validation failures are always the 10-digit `ValueError`. -/
theorem phone_init_error_shape (s : String) (e : PyErr)
    (h : Phone.init s = .error e) :
    e = .valueError "Номер телефону повинен складатися з 10 цифр." := by
  unfold Phone.init at h
  split at h
  · exact (Except.error.inj h).symm
  · exact absurd h (by simp)

/-- Characterization of `Phone.__init__` (claim C5, amended): construction
succeeds, returning the string unchanged, exactly when the string has 10
characters each accepted by Python `str.isdigit` — which includes non-ASCII
digit characters; every other string raises the `ValueError`. -/
theorem phone_init_characterization (s : String) :
    ((s.length = 10 ∧ ∀ c ∈ s.data, pyIsDigitChar c = true) →
      Phone.init s = .ok s) ∧
    (¬ (s.length = 10 ∧ ∀ c ∈ s.data, pyIsDigitChar c = true) →
      Phone.init s =
        .error (.valueError "Номер телефону повинен складатися з 10 цифр.")) := by
  have hlen : s.length = s.data.length := rfl
  constructor
  · rintro ⟨h10, hall⟩
    unfold Phone.init
    rw [if_neg]
    push_neg
    refine ⟨?_, ?_⟩
    · unfold pyStrIsDigit
      have : ¬ s.data.isEmpty := by
        cases hd : s.data with
        | nil => rw [hd] at hlen; simp at hlen; omega
        | cons a l => simp [hd]
      simp only [Bool.and_eq_true, Bool.not_eq_true', List.all_eq_true]
      exact ⟨by simpa using this, hall⟩
    · exact h10
  · intro hno
    unfold Phone.init
    rw [if_pos]
    by_cases h10 : s.length = 10
    · left
      intro hdig
      apply hno
      refine ⟨h10, ?_⟩
      unfold pyStrIsDigit at hdig
      simp only [Bool.and_eq_true, List.all_eq_true] at hdig
      exact hdig.2
    · right; exact h10

/-- Witness for `phone_init_characterization` at a concrete valid phone. -/
theorem phone_init_characterization_witness :
    Phone.init "0123456789" = .ok "0123456789" :=
  (phone_init_characterization "0123456789").1 (by decide)

/-- Counterexample to claim C5 as stated: the superscript-two character is not
an ASCII digit, yet Python `str.isdigit` accepts it, so `Phone` construction
succeeds on a 10-character string of them while the claim demands failure. -/
theorem phone_init_accepts_nonascii_digits :
    Phone.init "²²²²²²²²²²" = .ok "²²²²²²²²²²" ∧
    specPhoneAccepts "²²²²²²²²²²" = false := by
  constructor
  · rfl
  · rfl

/-- Claim C7: `edit_phone` with a present old phone and a malformed new phone
raises the phone `ValueError` and leaves the record — in particular its phone
sequence — exactly as it was. -/
theorem edit_phone_invalid_new_atomic (r : Record) (oldp newp : String)
    (e : PyErr) (hmem : oldp ∈ r.phones) (hbad : Phone.init newp = .error e) :
    Record.edit_phone r oldp newp = (.error e, r) := by
  unfold Record.edit_phone
  cases hidx : r.phones.findIdx? (fun p => p = oldp) with
  | none =>
    exfalso
    have := List.findIdx?_eq_none_iff.mp hidx oldp hmem
    simp at this
  | some i => rw [hbad]

/-- Witness for `edit_phone_invalid_new_atomic` on a concrete record. -/
theorem edit_phone_invalid_new_atomic_witness :
    Record.edit_phone ⟨"John", ["1234567890", "5555555555"], none⟩
        "1234567890" "123" =
      (.error (.valueError "Номер телефону повинен складатися з 10 цифр."),
       ⟨"John", ["1234567890", "5555555555"], none⟩) :=
  edit_phone_invalid_new_atomic _ _ _ _ (by decide) rfl

/-- Claim C8: removing an absent phone raises the not-found error and leaves
the record unchanged, and deleting an absent name raises the not-found
`KeyError` and leaves the book unchanged.  (Python spells the two errors
`ValueError` and `KeyError`; the spec's taxonomy calls both `NotFoundError`.) -/
theorem remove_phone_and_delete_absent (r : Record) (pn : String)
    (b : AddressBook) (name : String)
    (hp : pn ∉ r.phones) (hn : AddressBook.find b name = none) :
    Record.remove_phone r pn =
      (.error (.valueError "Номер телефону не знайдено."), r) ∧
    AddressBook.delete b name =
      (.error (.keyError "Контакт не знайдено."), b) := by
  constructor
  · unfold Record.remove_phone Record.find_phone
    have : r.phones.find? (fun p => p = pn) = none := by
      rw [List.find?_eq_none]
      intro x hx
      simp only [decide_eq_true_eq]
      exact fun hxe => hp (hxe ▸ hx)
    rw [this]
  · unfold AddressBook.delete
    rw [hn]

/-- Witness for `remove_phone_and_delete_absent` on concrete states. -/
theorem remove_phone_and_delete_absent_witness :
    Record.remove_phone ⟨"John", ["1234567890"], none⟩ "5555555555" =
      (.error (.valueError "Номер телефону не знайдено."),
       ⟨"John", ["1234567890"], none⟩) ∧
    AddressBook.delete [("John", ⟨"John", ["1234567890"], none⟩)] "Jane" =
      (.error (.keyError "Контакт не знайдено."),
       [("John", ⟨"John", ["1234567890"], none⟩)]) :=
  remove_phone_and_delete_absent _ _ _ _ (by decide) rfl

/-- Splitting never yields the empty list of segments. -/
theorem splitOnDot_ne_nil (l : List Char) : splitOnDot l ≠ [] := by
  cases l with
  | nil => simp [splitOnDot]
  | cons c cs =>
    unfold splitOnDot
    split
    · simp
    · cases h : splitOnDot cs <;> simp [h]

/-- Joining the split segments with dots recovers the original list. -/
theorem joinDots_splitOnDot (l : List Char) : joinDots (splitOnDot l) = l := by
  induction l with
  | nil => rfl
  | cons c cs ih =>
    by_cases hc : c = '.'
    · subst hc
      simp only [splitOnDot, if_pos rfl]
      cases h : splitOnDot cs with
      | nil => exact absurd h (splitOnDot_ne_nil cs)
      | cons a t =>
        rw [h] at ih
        show joinDots ([] :: a :: t) = '.' :: cs
        show [] ++ '.' :: joinDots (a :: t) = '.' :: cs
        simp [ih]
    · simp only [splitOnDot, if_neg hc]
      cases h : splitOnDot cs with
      | nil => exact absurd h (splitOnDot_ne_nil cs)
      | cons a t =>
        rw [h] at ih
        cases t with
        | nil =>
          show c :: a = c :: cs
          have ha : a = cs := by simpa [joinDots] using ih
          rw [ha]
        | cons b t2 =>
          show (c :: a) ++ '.' :: joinDots (b :: t2) = c :: cs
          have ha : a ++ '.' :: joinDots (b :: t2) = cs := ih
          simp [← ha]

/-- No segment produced by splitting contains a dot. -/
theorem splitOnDot_mem_no_dot (l : List Char) :
    ∀ a ∈ splitOnDot l, '.' ∉ a := by
  induction l with
  | nil =>
    intro a ha
    simp only [splitOnDot, List.mem_singleton] at ha
    simp [ha]
  | cons c cs ih =>
    by_cases hc : c = '.'
    · subst hc
      simp only [splitOnDot, if_pos rfl]
      intro a ha
      rcases List.mem_cons.mp ha with h | h
      · simp [h]
      · exact ih a h
    · simp only [splitOnDot, if_neg hc]
      cases h : splitOnDot cs with
      | nil => exact absurd h (splitOnDot_ne_nil cs)
      | cons a0 t =>
        rw [h] at ih
        intro a ha
        rcases List.mem_cons.mp ha with h1 | h1
        · subst h1
          intro hmem
          rcases List.mem_cons.mp hmem with h2 | h2
          · exact hc h2.symm
          · exact ih a0 (List.mem_cons_self a0 t) h2
        · exact ih a (List.mem_cons_of_mem _ h1)

/-- Splitting a dot-free segment followed by a dot peels off that segment. -/
theorem splitOnDot_append (a rest : List Char) :
    '.' ∉ a → splitOnDot (a ++ '.' :: rest) = a :: splitOnDot rest := by
  induction a with
  | nil => intro _; simp [splitOnDot]
  | cons c a0 ih =>
    intro ha
    have hc : c ≠ '.' := fun h => ha (by simp [h])
    have ha0 : '.' ∉ a0 := fun h => ha (List.mem_cons_of_mem _ h)
    rw [List.cons_append]
    simp only [splitOnDot, if_neg hc]
    rw [ih ha0]

/-- Splitting a dot-free list yields a single segment. -/
theorem splitOnDot_of_no_dot (a : List Char) :
    '.' ∉ a → splitOnDot a = [a] := by
  induction a with
  | nil => intro _; rfl
  | cons c a0 ih =>
    intro ha
    have hc : c ≠ '.' := fun h => ha (by simp [h])
    have ha0 : '.' ∉ a0 := fun h => ha (List.mem_cons_of_mem _ h)
    simp only [splitOnDot, if_neg hc]
    rw [ih ha0]

/-- A list of decimal digits contains no dot. -/
theorem all_digit_no_dot (l : List Char) :
    l.all Char.isDigit = true → '.' ∉ l := by
  intro h hmem
  have := List.all_eq_true.mp h '.' hmem
  simp [Char.isDigit] at this

/-- Parsing with the `"%d.%m.%Y"` format succeeds exactly on strings that
decompose as day `.` month `.` year with the field conditions of the
format. -/
theorem strptimeDMY_some_iff (s : String) :
    (∃ d, strptimeDMY s = some d) ↔
    ∃ dC mC yC, s.data = dC ++ '.' :: (mC ++ '.' :: yC) ∧
      dmyFieldsOK dC mC yC = true := by
  constructor
  · rintro ⟨d, hd⟩
    unfold strptimeDMY at hd
    rcases h3 : splitOnDot s.data with _ | ⟨dS, _ | ⟨mS, _ | ⟨yS, _ | _⟩⟩⟩ <;>
        rw [h3] at hd
    case cons.cons.cons.nil =>
      have hd2 : (if dmyFieldsOK dS mS yS = true then
          some (⟨digitsToNat yS, digitsToNat mS, digitsToNat dS⟩ : PyDate)
        else none) = some d := hd
      by_cases hok : dmyFieldsOK dS mS yS = true
      · refine ⟨dS, mS, yS, ?_, hok⟩
        rw [← joinDots_splitOnDot s.data, h3]
        rfl
      · rw [Bool.not_eq_true] at hok
        simp [hok] at hd2
    all_goals exact Option.noConfusion hd
  · rintro ⟨dC, mC, yC, hdata, hok⟩
    have h1 : dC.all Char.isDigit = true := by
      by_contra hx
      rw [Bool.not_eq_true] at hx
      simp [dmyFieldsOK, hx] at hok
    have h2 : mC.all Char.isDigit = true := by
      by_contra hx
      rw [Bool.not_eq_true] at hx
      simp [dmyFieldsOK, hx] at hok
    have h3 : yC.all Char.isDigit = true := by
      by_contra hx
      rw [Bool.not_eq_true] at hx
      simp [dmyFieldsOK, hx] at hok
    have hsplit : splitOnDot s.data = [dC, mC, yC] := by
      rw [hdata, splitOnDot_append _ _ (all_digit_no_dot _ h1),
          splitOnDot_append _ _ (all_digit_no_dot _ h2),
          splitOnDot_of_no_dot _ (all_digit_no_dot _ h3)]
    refine ⟨⟨digitsToNat yC, digitsToNat mC, digitsToNat dC⟩, ?_⟩
    unfold strptimeDMY
    rw [hsplit]
    simp [hok]

/-- Characterization of `Birthday.__init__` on ASCII strings (claim C6,
amended): construction succeeds exactly when the string is day `.` month `.`
year where day and month have ONE or two digits (values 1..31 and 1..12), the
year has exactly four digits, and the triple is a real calendar date of year
at least 1 (leap years included); every failure is the fixed `ValueError`.
The ASCII restriction is where the model's digit matching coincides with
CPython's regex `\d`. -/
theorem birthday_init_ascii_characterization (s : String)
    (_hascii : isAsciiStr s = true) :
    ((∃ v, Birthday.init s = .ok v) ↔
      ∃ dC mC yC, s.data = dC ++ '.' :: (mC ++ '.' :: yC) ∧
        dmyFieldsOK dC mC yC = true) ∧
    (∀ e, Birthday.init s = .error e →
      e = .valueError "Invalid date format. Use DD.MM.YYYY") := by
  constructor
  · rw [← strptimeDMY_some_iff]
    unfold Birthday.init
    cases hsp : strptimeDMY s with
    | none => simp
    | some d => simp
  · intro e he
    unfold Birthday.init at he
    cases hsp : strptimeDMY s with
    | none =>
      rw [hsp] at he
      exact (Except.error.inj he).symm
    | some d =>
      rw [hsp] at he
      exact absurd he (by simp)

/-- Witness for `birthday_init_ascii_characterization`: the valid date string
of the repository's own test run decomposes as required. -/
theorem birthday_init_ascii_characterization_witness :
    ∃ dC mC yC, ("01.11.1990" : String).data = dC ++ '.' :: (mC ++ '.' :: yC) ∧
      dmyFieldsOK dC mC yC = true :=
  ((birthday_init_ascii_characterization "01.11.1990" (by decide)).1).mp
    ⟨("01.11.1990", ⟨1990, 11, 1⟩), rfl⟩

/-- Counterexample to claim C6 as stated: `strptime`'s `%d` accepts a
ONE-digit day, so `"1.01.2000"` constructs fine although the claim's
two-digit-day pattern rejects it. -/
theorem birthday_init_accepts_one_digit_day :
    Birthday.init "1.01.2000" = .ok ("1.01.2000", ⟨2000, 1, 1⟩) ∧
    specBirthdayAccepts "1.01.2000" = false :=
  ⟨rfl, rfl⟩

/-- A name is absent from the book exactly when no entry carries it as key. -/
theorem find_eq_none_iff (b : AddressBook) (k : String) :
    AddressBook.find b k = none ↔ ∀ p ∈ b, p.1 ≠ k := by
  induction b with
  | nil => simp [AddressBook.find]
  | cons hd t ih =>
    cases hd with
    | mk k0 v0 =>
      unfold AddressBook.find
      by_cases hk : k0 = k
      · subst hk
        simp
      · simp only [if_neg hk, ih, List.mem_cons]
        constructor
        · rintro h p (rfl | hp)
          · exact hk
          · exact h p hp
        · intro h p hp
          exact h p (Or.inr hp)

/-- Dict assignment under a fresh key appends the new entry. -/
theorem dictInsert_fresh (b : AddressBook) (k : String) (r : Record)
    (h : AddressBook.find b k = none) : dictInsert b k r = b ++ [(k, r)] := by
  induction b with
  | nil => rfl
  | cons hd t ih =>
    cases hd with
    | mk k0 v0 =>
      have h2 := (find_eq_none_iff _ _).mp h
      have hk : k0 ≠ k := h2 (k0, v0) (List.mem_cons_self _ _)
      have ht : AddressBook.find t k = none :=
        (find_eq_none_iff _ _).mpr fun p hp => h2 p (List.mem_cons_of_mem _ hp)
      simp only [dictInsert, if_neg hk, List.cons_append]
      rw [ih ht]

/-- Re-storing the value already held under a key that occurs only in the
appended entry is a no-op. -/
theorem dictSet_fresh_append (b : AddressBook) (k : String) (r : Record)
    (h : AddressBook.find b k = none) :
    dictSet (b ++ [(k, r)]) k r = b ++ [(k, r)] := by
  induction b with
  | nil => simp [dictSet]
  | cons hd t ih =>
    cases hd with
    | mk k0 v0 =>
      have h2 := (find_eq_none_iff _ _).mp h
      have hk : k0 ≠ k := h2 (k0, v0) (List.mem_cons_self _ _)
      have ht : AddressBook.find t k = none :=
        (find_eq_none_iff _ _).mpr fun p hp => h2 p (List.mem_cons_of_mem _ hp)
      simp only [List.cons_append, dictSet, if_neg hk]
      show (k0, v0) :: dictSet (t ++ [(k, r)]) k r = (k0, v0) :: (t ++ [(k, r)])
      rw [ih ht]

/-- Claim C1 (amended): calling `add_contact` with a fresh (already-trimmed)
non-empty name and an invalid non-empty phone returns the phone `ValueError`
message, but the directory is NOT unchanged: it gains an entry for the name
holding an empty phone list and no birthday, while every pre-existing entry
is preserved verbatim. -/
theorem add_contact_invalid_phone_adds_empty_record
    (book : AddressBook) (name phone : String) (rest : List String)
    (hfresh : AddressBook.find book name = none)
    (htrim : pyStrip name = name) (hne : name ≠ "")
    (e : PyErr) (hbad : Phone.init phone = .error e) (hpne : phone ≠ "") :
    add_contact (name :: phone :: rest) book =
      ("Помилка значення: Номер телефону повинен складатися з 10 цифр.",
       book ++ [(name, ⟨name, [], none⟩)]) := by
  have hmsg := phone_init_error_shape phone e hbad
  subst hmsg
  have hcreate : Record.create name = .ok ⟨name, [], none⟩ := by
    unfold Record.create Name.init
    rw [if_neg (by push_neg; exact ⟨hne, by rw [htrim]; exact hne⟩), htrim]
  simp only [add_contact, addContactInner, hfresh, hcreate,
    AddressBook.add_record, Record.add_phone, hbad, if_pos hpne]
  rw [dictInsert_fresh book name _ hfresh]
  rw [dictSet_fresh_append book name _ hfresh]
  rfl

/-- Counterexample to claim C1 as stated: on the repository's own test input
the directory is changed by the failing call — `find` afterwards returns an
entry for the name (with no phones) instead of absent. -/
theorem add_contact_test123_leaves_entry :
    AddressBook.find (add_contact ["Test", "123"] []).2 "Test" ≠ none ∧
    (add_contact ["Test", "123"] []).2 = [("Test", ⟨"Test", [], none⟩)] ∧
    (add_contact ["Test", "123"] []).1 =
      "Помилка значення: Номер телефону повинен складатися з 10 цифр." :=
  ⟨by decide, rfl, rfl⟩

/-- Witness for `add_contact_invalid_phone_adds_empty_record` on the test
scenario input. -/
theorem add_contact_invalid_phone_witness :
    add_contact ["Test", "123"] [] =
      ("Помилка значення: Номер телефону повинен складатися з 10 цифр.",
       [("Test", ⟨"Test", [], none⟩)]) :=
  add_contact_invalid_phone_adds_empty_record [] "Test" "123" [] rfl rfl
    (by decide) _ rfl (by decide)

/-- Claim C2 is violated by the code (code bug): a February-29 birthday
record is perfectly constructible, yet `get_upcoming_birthdays` run with a
reference date in a non-leap year raises `ValueError` out of
`birthday_date.replace(year=today.year)` instead of completing — the error
branch of the year re-projection IS reachable, and no valid projected date is
produced. -/
theorem get_upcoming_birthdays_feb29_raises :
    Birthday.init "29.02.2000" = .ok ("29.02.2000", ⟨2000, 2, 29⟩) ∧
    AddressBook.get_upcoming_birthdays
        [("Leap", ⟨"Leap", [], some ("29.02.2000", ⟨2000, 2, 29⟩)⟩)]
        ⟨2025, 2, 20⟩ =
      .error (.valueError "day is out of range for month") :=
  ⟨rfl, rfl⟩

/-- A successful year replacement yields exactly the projected triple. -/
theorem dateReplaceYear_ok_eq (d : PyDate) (y : Nat) (b : PyDate)
    (h : dateReplaceYear d y = .ok b) : b = ⟨y, d.month, d.day⟩ := by
  unfold dateReplaceYear at h
  split at h
  · exact (Except.ok.inj h).symm
  · exact absurd h (by simp)

/-- A month beyond 12 has no days. -/
theorem daysInMonth_big (y m : Nat) (h13 : 13 ≤ m) : daysInMonth y m = 0 := by
  unfold daysInMonth
  repeat rw [if_neg (by omega)]

/-- Month zero has no days. -/
theorem daysInMonth_zero (y : Nat) : daysInMonth y 0 = 0 := by
  unfold daysInMonth
  norm_num

/-- A month with at least one day lies in `1..12`. -/
theorem daysInMonth_pos_month_bounds (y m : Nat) (h : 1 ≤ daysInMonth y m) :
    1 ≤ m ∧ m ≤ 12 := by
  by_contra hc
  push_neg at hc
  rcases Nat.lt_or_ge m 1 with h1 | h1
  · have hm : m = 0 := by omega
    rw [hm, daysInMonth_zero] at h
    omega
  · have hm : 13 ≤ m := by
      rcases Nat.lt_or_ge m 13 with h2 | h2
      · exact absurd (hc h1) (by omega)
      · exact h2
    rw [daysInMonth_big y m hm] at h
    omega

/-- A successful year replacement yields a valid date. -/
theorem dateReplaceYear_ok_valid (d : PyDate) (y : Nat) (b : PyDate)
    (h : dateReplaceYear d y = .ok b) : ValidDate b := by
  unfold dateReplaceYear at h
  split at h
  · rename_i hcond
    obtain ⟨h1, h2, h3, h4⟩ := hcond
    have hb := (Except.ok.inj h).symm
    subst hb
    have hm := daysInMonth_pos_month_bounds y d.month (le_trans h3 h4)
    exact ⟨h1, hm.1, hm.2, h3, h4⟩
  · exact absurd h (by simp)

/-- A successful year projection is exactly the spec-side projection (this
year, or next year when this year's date already passed), and is a valid
date. -/
theorem projectBirthday_ok_eq (today bd bty : PyDate)
    (h : projectBirthday today bd = .ok bty) :
    bty = (if pyDateLt ⟨today.year, bd.month, bd.day⟩ today then
        (⟨today.year + 1, bd.month, bd.day⟩ : PyDate)
      else ⟨today.year, bd.month, bd.day⟩) ∧
    ValidDate bty := by
  unfold projectBirthday at h
  split at h
  · exact absurd h (by simp)
  · rename_i b1 heq
    have hb1 := dateReplaceYear_ok_eq _ _ _ heq
    subst hb1
    split at h
    · rename_i hlt
      have hbty := dateReplaceYear_ok_eq _ _ _ h
      exact ⟨by rw [if_pos hlt]; exact hbty, dateReplaceYear_ok_valid _ _ _ h⟩
    · rename_i hlt
      have hbty : bty = ⟨today.year, bd.month, bd.day⟩ := (Except.ok.inj h).symm
      subst hbty
      exact ⟨by rw [if_neg hlt], dateReplaceYear_ok_valid _ _ _ heq⟩

/-- Characterization of one loop iteration: a silently skipped record is not
selected by the window predicate, and an emitted entry comes from a selected
record with a valid projected date and the weekend-shifted formatted date. -/
theorem ubStep_ok (today : PyDate) (r : Record) (o : Option UBEntry)
    (h : ubStep today r = .ok o) :
    (o = none → specIncludes today r = false) ∧
    (∀ e0, o = some e0 → specIncludes today r = true ∧
      ∃ bs bd bty, r.birthday = some (bs, bd) ∧ ValidDate bty ∧
        bty.month = bd.month ∧ bty.day = bd.day ∧
        (bty.year = today.year ∨ bty.year = today.year + 1) ∧
        0 ≤ (toOrdinal bty : Int) - (toOrdinal today : Int) ∧
        (toOrdinal bty : Int) - (toOrdinal today : Int) ≤ 7 ∧
        e0 = ⟨r.name, strftimeDMY (congratsDate bty)⟩) := by
  unfold ubStep at h
  split at h
  · rename_i hb
    have ho : o = none := (Except.ok.inj h).symm
    subst ho
    exact ⟨fun _ => by simp [specIncludes, hb],
           fun e0 he0 => absurd he0 (by simp)⟩
  · rename_i bs bd hb
    split at h
    · exact absurd h (by simp)
    · rename_i bty hproj
      obtain ⟨hbeq, hvalid⟩ := projectBirthday_ok_eq today bd bty hproj
      split at h
      · rename_i hw
        have ho : o = some ⟨r.name, strftimeDMY (congratsDate bty)⟩ :=
          (Except.ok.inj h).symm
        subst ho
        constructor
        · intro hcontra
          exact absurd hcontra (by simp)
        · intro e0 he0
          have he : e0 = ⟨r.name, strftimeDMY (congratsDate bty)⟩ :=
            (Option.some.inj he0).symm
          refine ⟨?_, bs, bd, bty, hb, hvalid, ?_, ?_, ?_, hw.1, hw.2, he⟩
          · simp only [specIncludes, hb]
            rw [← hbeq]
            exact decide_eq_true hw
          · rw [hbeq]; split <;> rfl
          · rw [hbeq]; split <;> rfl
          · rw [hbeq]; split
            · right; rfl
            · left; rfl
      · rename_i hw
        have ho : o = none := (Except.ok.inj h).symm
        subst ho
        refine ⟨fun _ => ?_, fun e0 he0 => absurd he0 (by simp)⟩
        simp only [specIncludes, hb]
        rw [← hbeq]
        exact decide_eq_false hw

/-- Loop invariant for claim C3: a successful run of the birthday loop
returns, in order, exactly the names of the records selected by the window
predicate. -/
theorem ubGo_ok_names (today : PyDate) (rs : List Record) (l : List UBEntry)
    (h : ubGo today rs = .ok l) :
    l.map UBEntry.name = (rs.filter (specIncludes today)).map Record.name := by
  induction rs generalizing l with
  | nil =>
    have hl : l = [] := (Except.ok.inj h).symm
    subst hl
    rfl
  | cons r rest ih =>
    unfold ubGo at h
    split at h
    · exact absurd h (by simp)
    · rename_i head hstep
      split at h
      · exact absurd h (by simp)
      · rename_i tail htail
        have hl : l = head.toList ++ tail := (Except.ok.inj h).symm
        subst hl
        have hs := ubStep_ok today r head hstep
        cases head with
        | none =>
          have hsel : specIncludes today r = false := hs.1 rfl
          rw [List.filter_cons_of_neg (by simp [hsel])]
          simpa using ih tail htail
        | some e0 =>
          obtain ⟨hsel, bs, bd, bty, hb, hvalid, hm, hd, hy, h0, h7, he⟩ :=
            hs.2 e0 rfl
          rw [List.filter_cons_of_pos hsel]
          simp only [Option.toList, List.singleton_append, List.map_cons]
          rw [he, ih tail htail]

/-- Claim C3 (amended): whenever `get_upcoming_birthdays` completes without
raising (the Feb-29 counterexample shows it need not), the returned entries
name, in dict order, exactly the records with a birthday whose projection
onto the reference year — onto the next year when strictly before the
reference date — lies 0 to 7 whole days ahead; records without a birthday or
with a projection outside the window contribute nothing. -/
theorem get_upcoming_birthdays_selects_exactly
    (b : AddressBook) (today : PyDate) (l : List UBEntry)
    (h : AddressBook.get_upcoming_birthdays b today = .ok l) :
    l.map UBEntry.name =
      ((b.map Prod.snd).filter (specIncludes today)).map Record.name :=
  ubGo_ok_names today (b.map Prod.snd) l h

/-- Witness for `get_upcoming_birthdays_selects_exactly` on the spec's John
scenario (birthday 01.11.1990, reference date 2024-10-28). -/
theorem get_upcoming_birthdays_selects_exactly_witness :
    ([⟨"John", "01.11.2024"⟩] : List UBEntry).map UBEntry.name =
      ((([("John", ⟨"John", ["1234567890"],
            some ("01.11.1990", ⟨1990, 11, 1⟩)⟩)] : AddressBook).map
          Prod.snd).filter (specIncludes ⟨2024, 10, 28⟩)).map Record.name :=
  get_upcoming_birthdays_selects_exactly _ ⟨2024, 10, 28⟩ _ rfl

/-- Counterexample to claim C3 as stated: for a directory holding a Feb-29
record and a record squarely inside the window, the call raises instead of
returning, so the in-window record is not included in any output. -/
theorem get_upcoming_birthdays_window_record_dropped :
    specIncludes ⟨2025, 2, 20⟩
        ⟨"Ann", [], some ("25.02.1990", ⟨1990, 2, 25⟩)⟩ = true ∧
    AddressBook.get_upcoming_birthdays
        [("Leap", ⟨"Leap", [], some ("29.02.2000", ⟨2000, 2, 29⟩)⟩),
         ("Ann", ⟨"Ann", [], some ("25.02.1990", ⟨1990, 2, 25⟩)⟩)]
        ⟨2025, 2, 20⟩ =
      .error (.valueError "day is out of range for month") :=
  ⟨rfl, rfl⟩

/-- Every month in range has at least one day. -/
theorem daysInMonth_pos (y m : Nat) (h1 : 1 ≤ m) (h2 : m ≤ 12) :
    1 ≤ daysInMonth y m := by
  cases hl : isLeap y <;> interval_cases m <;> simp [daysInMonth, hl]

/-- Cumulative month lengths advance by the month's number of days. -/
theorem daysBeforeMonth_succ (y m : Nat) (h1 : 1 ≤ m) (h2 : m ≤ 11) :
    daysBeforeMonth (isLeap y) (m + 1) =
      daysBeforeMonth (isLeap y) m + daysInMonth y m := by
  cases hl : isLeap y <;> interval_cases m <;>
    simp [daysBeforeMonth, daysInMonth, hl]

set_option maxHeartbeats 2000000 in
/-- Days-before-year advances by 365 plus the leap day. -/
theorem daysBeforeYear_succ (y : Nat) (hy : 1 ≤ y) :
    daysBeforeYear (y + 1) =
      daysBeforeYear y + 365 + (if isLeap y then 1 else 0) := by
  have hiff : isLeap y = true ↔ (y % 4 = 0 ∧ (y % 100 ≠ 0 ∨ y % 400 = 0)) := by
    simp [isLeap]
  have rel1 : y % 100 = 0 → y % 4 = 0 := by omega
  have rel2 : y % 400 = 0 → y % 100 = 0 := by omega
  have d4a : y % 4 = 0 → y / 4 = (y - 1) / 4 + 1 := by omega
  have d4b : y % 4 ≠ 0 → y / 4 = (y - 1) / 4 := by omega
  have d100a : y % 100 = 0 → y / 100 = (y - 1) / 100 + 1 := by omega
  have d100b : y % 100 ≠ 0 → y / 100 = (y - 1) / 100 := by omega
  have d400a : y % 400 = 0 → y / 400 = (y - 1) / 400 + 1 := by omega
  have d400b : y % 400 ≠ 0 → y / 400 = (y - 1) / 400 := by omega
  unfold daysBeforeYear
  simp only [Nat.add_sub_cancel]
  by_cases h4 : y % 4 = 0
  · by_cases h100 : y % 100 = 0
    · by_cases h400 : y % 400 = 0
      · have hl : isLeap y = true := hiff.mpr ⟨h4, Or.inr h400⟩
        simp only [hl, if_true]
        rw [d4a h4, d100a h100, d400a h400]
        omega
      · have hl : isLeap y = false := by
          have hn : ¬ (y % 4 = 0 ∧ (y % 100 ≠ 0 ∨ y % 400 = 0)) := by tauto
          rw [← Bool.not_eq_true, hiff]
          exact hn
        simp only [hl, Bool.false_eq_true, if_false]
        rw [d4a h4, d100a h100, d400b h400]
        omega
    · have h400 : y % 400 ≠ 0 := fun hx => h100 (rel2 hx)
      have hl : isLeap y = true := hiff.mpr ⟨h4, Or.inl h100⟩
      simp only [hl, if_true]
      rw [d4a h4, d100b h100, d400b h400]
      omega
  · have h100 : y % 100 ≠ 0 := fun hx => h4 (rel1 hx)
    have h400 : y % 400 ≠ 0 := fun hx => h100 (rel2 hx)
    have hl : isLeap y = false := by
      have hn : ¬ (y % 4 = 0 ∧ (y % 100 ≠ 0 ∨ y % 400 = 0)) := by tauto
      rw [← Bool.not_eq_true, hiff]
      exact hn
    simp only [hl, Bool.false_eq_true, if_false]
    rw [d4b h4, d100b h100, d400b h400]
    omega

/-- Tomorrow's ordinal is today's plus one (for valid dates). -/
theorem toOrdinal_nextDay (d : PyDate) (hv : ValidDate d) :
    toOrdinal (nextDay d) = toOrdinal d + 1 := by
  obtain ⟨hy, hm1, hm2, hd1, hd2⟩ := hv
  unfold nextDay
  split_ifs with hlt hm12
  · show daysBeforeYear d.year + daysBeforeMonth (isLeap d.year) d.month +
      (d.day + 1) = toOrdinal d + 1
    unfold toOrdinal
    omega
  · have hde : d.day = daysInMonth d.year d.month := by omega
    have hstep := daysBeforeMonth_succ d.year d.month hm1 (by omega)
    show daysBeforeYear d.year + daysBeforeMonth (isLeap d.year) (d.month + 1) +
      1 = toOrdinal d + 1
    unfold toOrdinal
    omega
  · have hm : d.month = 12 := by omega
    have h31 : daysInMonth d.year 12 = 31 := by norm_num [daysInMonth]
    have hde : d.day = 31 := by
      rw [hm] at hlt hd2
      omega
    have hyear := daysBeforeYear_succ d.year hy
    have h12 : daysBeforeMonth (isLeap d.year) 12 =
        334 + (if isLeap d.year then 1 else 0) := by
      cases hIL : isLeap d.year <;> norm_num [daysBeforeMonth, hIL]
    have h01 : daysBeforeMonth (isLeap (d.year + 1)) 1 = 0 := by
      cases hIL : isLeap (d.year + 1) <;> norm_num [daysBeforeMonth, hIL]
    show daysBeforeYear (d.year + 1) +
      daysBeforeMonth (isLeap (d.year + 1)) 1 + 1 = toOrdinal d + 1
    unfold toOrdinal
    rw [h01, hm, h12, hde, hyear]
    cases hIL : isLeap d.year <;> simp [hIL]

/-- Tomorrow of a valid date is a valid date. -/
theorem validDate_nextDay (d : PyDate) (hv : ValidDate d) :
    ValidDate (nextDay d) := by
  obtain ⟨hy, hm1, hm2, hd1, hd2⟩ := hv
  unfold nextDay
  split_ifs with hlt hm12
  · exact ⟨hy, hm1, hm2, by show 1 ≤ d.day + 1; omega, by
      show d.day + 1 ≤ daysInMonth d.year d.month
      omega⟩
  · refine ⟨hy, by show 1 ≤ d.month + 1; omega, by show d.month + 1 ≤ 12; omega,
      by show 1 ≤ 1; omega, ?_⟩
    show 1 ≤ daysInMonth d.year (d.month + 1)
    exact daysInMonth_pos d.year (d.month + 1) (by omega) (by omega)
  · refine ⟨by show 1 ≤ d.year + 1; omega, by show (1:Nat) ≤ 1; omega,
      by show (1:Nat) ≤ 12; omega, by show (1:Nat) ≤ 1; omega, ?_⟩
    show 1 ≤ daysInMonth (d.year + 1) 1
    norm_num [daysInMonth]

/-- Tomorrow's weekday is the next weekday. -/
theorem weekday_nextDay (d : PyDate) (hv : ValidDate d) :
    weekday (nextDay d) = (weekday d + 1) % 7 := by
  unfold weekday
  rw [toOrdinal_nextDay d hv]
  omega

/-- The weekend shift of the loop: kept on Monday-Friday, two days forward
from Saturday and one from Sunday, in both cases landing on a Monday. -/
theorem congratsDate_cases (d : PyDate) (hv : ValidDate d) :
    (weekday d ≤ 4 → congratsDate d = d) ∧
    (weekday d = 5 → congratsDate d = nextDay (nextDay d) ∧
      weekday (congratsDate d) = 0) ∧
    (weekday d = 6 → congratsDate d = nextDay d ∧
      weekday (congratsDate d) = 0) := by
  refine ⟨?_, ?_, ?_⟩
  · intro h4
    unfold congratsDate
    rw [if_neg (by omega), if_neg (by omega)]
  · intro h5
    unfold congratsDate
    rw [if_pos h5]
    refine ⟨rfl, ?_⟩
    rw [weekday_nextDay _ (validDate_nextDay _ hv), weekday_nextDay _ hv, h5]
  · intro h6
    unfold congratsDate
    rw [if_neg (by omega), if_pos h6]
    exact ⟨rfl, by rw [weekday_nextDay _ hv, h6]⟩

/-- Every entry of a successful loop run comes from a record of the list,
with the projected valid date, the window bounds, and the rendered entry. -/
theorem ubGo_ok_mem (today : PyDate) (rs : List Record) (l : List UBEntry)
    (h : ubGo today rs = .ok l) :
    ∀ e ∈ l, ∃ r, r ∈ rs ∧ ∃ bs bd bty,
      r.birthday = some (bs, bd) ∧ ValidDate bty ∧
      bty.month = bd.month ∧ bty.day = bd.day ∧
      (bty.year = today.year ∨ bty.year = today.year + 1) ∧
      0 ≤ (toOrdinal bty : Int) - (toOrdinal today : Int) ∧
      (toOrdinal bty : Int) - (toOrdinal today : Int) ≤ 7 ∧
      e = ⟨r.name, strftimeDMY (congratsDate bty)⟩ := by
  induction rs generalizing l with
  | nil =>
    have hl : l = [] := (Except.ok.inj h).symm
    subst hl
    intro e he
    exact absurd he (by simp)
  | cons r rest ih =>
    unfold ubGo at h
    split at h
    · exact absurd h (by simp)
    · rename_i head hstep
      split at h
      · exact absurd h (by simp)
      · rename_i tail htail
        have hl : l = head.toList ++ tail := (Except.ok.inj h).symm
        subst hl
        intro e he
        rcases List.mem_append.mp he with hh | ht
        · cases head with
          | none => exact absurd hh (by simp)
          | some e0 =>
            have he0 : e = e0 := by simpa using hh
            subst he0
            obtain ⟨_, bs, bd, bty, hb, hvalid, hm, hd, hy, h0, h7, heq⟩ :=
              (ubStep_ok today r _ hstep).2 e rfl
            exact ⟨r, List.mem_cons_self r rest, bs, bd, bty, hb, hvalid,
              hm, hd, hy, h0, h7, heq⟩
        · obtain ⟨r0, hr0, hrest⟩ := ih tail htail e ht
          exact ⟨r0, List.mem_cons_of_mem _ hr0, hrest⟩

/-- Claim C4: each entry of a successful `get_upcoming_birthdays` run carries
its record's name together with the projected birthday date formatted
DD.MM.YYYY after the weekend rule: the date is kept when its weekday is
Monday through Friday, shifted 2 days forward from Saturday and 1 day forward
from Sunday — in both weekend cases landing on a Monday (weekday 0). -/
theorem upcoming_entry_congratulation_rule
    (b : AddressBook) (today : PyDate) (l : List UBEntry) (e : UBEntry)
    (h : AddressBook.get_upcoming_birthdays b today = .ok l) (he : e ∈ l) :
    ∃ k r, (k, r) ∈ b ∧ ∃ bs bd bty,
      r.birthday = some (bs, bd) ∧ ValidDate bty ∧
      bty.month = bd.month ∧ bty.day = bd.day ∧
      (bty.year = today.year ∨ bty.year = today.year + 1) ∧
      e = ⟨r.name, strftimeDMY (congratsDate bty)⟩ ∧
      (weekday bty ≤ 4 → congratsDate bty = bty) ∧
      (weekday bty = 5 → congratsDate bty = nextDay (nextDay bty) ∧
        weekday (congratsDate bty) = 0) ∧
      (weekday bty = 6 → congratsDate bty = nextDay bty ∧
        weekday (congratsDate bty) = 0) := by
  obtain ⟨r, hr, bs, bd, bty, hb, hvalid, hm, hd, hy, h0, h7, heq⟩ :=
    ubGo_ok_mem today (b.map Prod.snd) l h e he
  obtain ⟨p, hp, hpr⟩ := List.mem_map.mp hr
  obtain ⟨mon1, mon2, mon3⟩ := congratsDate_cases bty hvalid
  have hmem : (p.1, r) ∈ b := by
    rw [← hpr]
    simpa using hp
  exact ⟨p.1, r, hmem, bs, bd, bty, hb, hvalid, hm, hd, hy, heq,
    mon1, mon2, mon3⟩

/-- Witness for `upcoming_entry_congratulation_rule` on the spec's Ann
scenario: 03.11.2024 is a Sunday, and the entry shows 04.11.2024 (Monday). -/
theorem upcoming_entry_congratulation_rule_witness :
    ∃ k r, (k, r) ∈
        ([("Ann", ⟨"Ann", [], some ("03.11.1990", ⟨1990, 11, 3⟩)⟩)] :
          AddressBook) ∧
      ∃ bs bd bty,
        r.birthday = some (bs, bd) ∧ ValidDate bty ∧
        bty.month = bd.month ∧ bty.day = bd.day ∧
        (bty.year = (⟨2024, 10, 28⟩ : PyDate).year ∨
          bty.year = (⟨2024, 10, 28⟩ : PyDate).year + 1) ∧
        (⟨"Ann", "04.11.2024"⟩ : UBEntry) =
          ⟨r.name, strftimeDMY (congratsDate bty)⟩ ∧
        (weekday bty ≤ 4 → congratsDate bty = bty) ∧
        (weekday bty = 5 → congratsDate bty = nextDay (nextDay bty) ∧
          weekday (congratsDate bty) = 0) ∧
        (weekday bty = 6 → congratsDate bty = nextDay bty ∧
          weekday (congratsDate bty) = 0) :=
  upcoming_entry_congratulation_rule _ ⟨2024, 10, 28⟩
    [⟨"Ann", "04.11.2024"⟩] _ rfl (by decide)

/-- Dropping a prefix twice is dropping it once. -/
theorem dropWhile_idem (p : Char → Bool) (l : List Char) :
    (l.dropWhile p).dropWhile p = l.dropWhile p := by
  induction l with
  | nil => rfl
  | cons c cs ih =>
    by_cases hc : p c = true
    · rw [List.dropWhile_cons, if_pos hc]
      exact ih
    · rw [List.dropWhile_cons, if_neg hc, List.dropWhile_cons, if_neg hc]

/-- What `dropWhile` removes is a prefix. -/
theorem exists_append_dropWhile (p : Char → Bool) (l : List Char) :
    ∃ u, l = u ++ l.dropWhile p := by
  induction l with
  | nil => exact ⟨[], rfl⟩
  | cons c cs ih =>
    by_cases hc : p c = true
    · obtain ⟨u, hu⟩ := ih
      refine ⟨c :: u, ?_⟩
      rw [List.dropWhile_cons, if_pos hc, List.cons_append, ← hu]
    · exact ⟨[], by rw [List.dropWhile_cons, if_neg hc]; rfl⟩

/-- Dropping a prefix cannot lengthen a list. -/
theorem dropWhile_length_le (p : Char → Bool) (l : List Char) :
    (l.dropWhile p).length ≤ l.length := by
  induction l with
  | nil => exact Nat.le_refl _
  | cons c cs ih =>
    by_cases hc : p c = true
    · rw [List.dropWhile_cons, if_pos hc]
      exact Nat.le_trans ih (by simp)
    · rw [List.dropWhile_cons, if_neg hc]

/-- A list unchanged by `dropWhile` starts with a non-matching character. -/
theorem head_not_of_dropWhile_self (p : Char → Bool) (l : List Char)
    (h : l.dropWhile p = l) : ∀ a, l.head? = some a → p a = false := by
  cases l with
  | nil => intro a ha; exact absurd ha (by simp)
  | cons c cs =>
    intro a ha
    have hac : a = c := by simpa using ha.symm
    subst hac
    by_contra hx
    rw [Bool.not_eq_false] at hx
    rw [List.dropWhile_cons, if_pos hx] at h
    have hlen := congrArg List.length h
    have hle := dropWhile_length_le p cs
    simp at hlen
    omega

/-- A list starting with a non-matching character is unchanged by
`dropWhile`. -/
theorem dropWhile_eq_self_of_head (p : Char → Bool) (l : List Char)
    (h : ∀ a, l.head? = some a → p a = false) : l.dropWhile p = l := by
  cases l with
  | nil => rfl
  | cons c cs => rw [List.dropWhile_cons, if_neg (by simp [h c rfl])]

/-- The head of a non-empty prefix is the head of the whole list. -/
theorem append_head_of_ne_nil (t u : List Char) (hne : t ≠ []) :
    (t ++ u).head? = t.head? := by
  cases t with
  | nil => exact absurd rfl hne
  | cons c cs => rfl

/-- Stripping is idempotent (list version). -/
theorem pyStripList_idem (l : List Char) :
    pyStripList (pyStripList l) = pyStripList l := by
  have hm : (l.dropWhile pyIsSpace).dropWhile pyIsSpace =
      l.dropWhile pyIsSpace := dropWhile_idem _ _
  unfold pyStripList
  have hrpre : ∃ u, l.dropWhile pyIsSpace =
      ((l.dropWhile pyIsSpace).reverse.dropWhile pyIsSpace).reverse ++ u := by
    obtain ⟨u, hu⟩ :=
      exists_append_dropWhile pyIsSpace (l.dropWhile pyIsSpace).reverse
    refine ⟨u.reverse, ?_⟩
    calc l.dropWhile pyIsSpace
        = (l.dropWhile pyIsSpace).reverse.reverse :=
          (List.reverse_reverse _).symm
      _ = (u ++ (l.dropWhile pyIsSpace).reverse.dropWhile pyIsSpace).reverse :=
          by rw [← hu]
      _ = ((l.dropWhile pyIsSpace).reverse.dropWhile pyIsSpace).reverse ++
            u.reverse := by rw [List.reverse_append]
  have hr1 : (((l.dropWhile pyIsSpace).reverse.dropWhile
        pyIsSpace).reverse).dropWhile pyIsSpace =
      ((l.dropWhile pyIsSpace).reverse.dropWhile pyIsSpace).reverse := by
    apply dropWhile_eq_self_of_head
    intro a ha
    obtain ⟨u, hu⟩ := hrpre
    have hrne :
        ((l.dropWhile pyIsSpace).reverse.dropWhile pyIsSpace).reverse ≠ [] := by
      intro hemp
      rw [hemp] at ha
      exact absurd ha (by simp)
    have hhead : (l.dropWhile pyIsSpace).head? = some a := by
      rw [hu, append_head_of_ne_nil _ _ hrne, ha]
    exact head_not_of_dropWhile_self pyIsSpace _ hm a hhead
  rw [hr1, List.reverse_reverse, dropWhile_idem]

/-- Stripping is idempotent. -/
theorem pyStrip_idem (s : String) : pyStrip (pyStrip s) = pyStrip s := by
  unfold pyStrip
  exact congrArg String.mk (pyStripList_idem s.data)

/-- Every mutating record method leaves the name untouched. -/
theorem recStep_name (r r1 : Record) (h : RecStep r r1) : r1.name = r.name := by
  rcases h with ⟨p, rfl⟩ | ⟨p, rfl⟩ | ⟨p, q, rfl⟩ | ⟨s, rfl⟩
  · unfold Record.add_phone
    cases Phone.init p <;> rfl
  · unfold Record.remove_phone
    cases r.find_phone p <;> rfl
  · unfold Record.edit_phone
    cases r.phones.findIdx? (fun x => x = p) with
    | none => rfl
    | some i => cases Phone.init q <;> rfl
  · unfold Record.add_birthday
    cases Birthday.init s <;> rfl

/-- Every reachable record carries a strip-fixed name (a `Name` is stored
stripped and never changes). -/
theorem reachableRec_name_stripped (r : Record) (h : ReachableRec r) :
    pyStrip r.name = r.name := by
  induction h with
  | create raw r hc =>
    unfold Record.create at hc
    cases hn : Name.init raw with
    | error e => rw [hn] at hc; exact absurd hc (by simp)
    | ok nm =>
      rw [hn] at hc
      have hr : r = ⟨nm, [], none⟩ := (Except.ok.inj hc).symm
      subst hr
      unfold Name.init at hn
      split at hn
      · exact absurd hn (by simp)
      · have hnm : nm = pyStrip raw := (Except.ok.inj hn).symm
        subst hnm
        show pyStrip (pyStrip raw) = pyStrip raw
        exact pyStrip_idem raw
  | step r r1 hr hs ih =>
    rw [recStep_name r r1 hs]
    exact ih

/-- Membership after dict assignment. -/
theorem mem_dictInsert (b : AddressBook) (k : String) (v : Record)
    (p : String × Record) (hp : p ∈ dictInsert b k v) :
    p = (k, v) ∨ p ∈ b := by
  induction b with
  | nil => simpa [dictInsert] using hp
  | cons hd t ih =>
    cases hd with
    | mk k0 v0 =>
      unfold dictInsert at hp
      by_cases hk : k0 = k
      · rw [if_pos hk] at hp
        rcases List.mem_cons.mp hp with h1 | h1
        · subst hk; left; exact h1
        · right; exact List.mem_cons_of_mem _ h1
      · rw [if_neg hk] at hp
        rcases List.mem_cons.mp hp with h1 | h1
        · right; rw [h1]; exact List.mem_cons_self _ _
        · rcases ih h1 with h2 | h2
          · left; exact h2
          · right; exact List.mem_cons_of_mem _ h2

/-- Membership after dict deletion. -/
theorem mem_dictRemove (b : AddressBook) (k : String) (p : String × Record)
    (hp : p ∈ dictRemove b k) : p ∈ b := by
  induction b with
  | nil => simp [dictRemove] at hp
  | cons hd t ih =>
    cases hd with
    | mk k0 v0 =>
      unfold dictRemove at hp
      by_cases hk : k0 = k
      · rw [if_pos hk] at hp
        exact List.mem_cons_of_mem _ hp
      · rw [if_neg hk] at hp
        rcases List.mem_cons.mp hp with h1 | h1
        · rw [h1]; exact List.mem_cons_self _ _
        · exact List.mem_cons_of_mem _ (ih h1)

/-- Membership after in-place mutation of the record under a key. -/
theorem mem_dictSet (b : AddressBook) (k : String) (v : Record)
    (p : String × Record) (hp : p ∈ dictSet b k v) :
    p ∈ b ∨ (p = (k, v) ∧ ∃ w, (k, w) ∈ b) := by
  induction b with
  | nil => simp [dictSet] at hp
  | cons hd t ih =>
    cases hd with
    | mk k0 v0 =>
      unfold dictSet at hp
      rcases List.mem_cons.mp hp with h1 | h1
      · by_cases hk : k0 = k
        · rw [if_pos hk] at h1
          subst hk
          right
          exact ⟨h1, v0, List.mem_cons_self _ _⟩
        · rw [if_neg hk] at h1
          left; rw [h1]; exact List.mem_cons_self _ _
      · rcases ih h1 with h2 | ⟨h2, w, hw⟩
        · left; exact List.mem_cons_of_mem _ h2
        · right; exact ⟨h2, w, List.mem_cons_of_mem _ hw⟩

/-- A found entry is a member. -/
theorem find_some_mem (b : AddressBook) (k : String) (v : Record)
    (h : AddressBook.find b k = some v) : (k, v) ∈ b := by
  induction b with
  | nil => simp [AddressBook.find] at h
  | cons hd t ih =>
    cases hd with
    | mk k0 v0 =>
      unfold AddressBook.find at h
      by_cases hk : k0 = k
      · rw [if_pos hk] at h
        have hv : v0 = v := Option.some.inj h
        subst hv; subst hk
        exact List.mem_cons_self _ _
      · rw [if_neg hk] at h
        exact List.mem_cons_of_mem _ (ih h)

/-- Lookup after assignment under the same key. -/
theorem find_dictInsert_self (b : AddressBook) (k : String) (v : Record) :
    AddressBook.find (dictInsert b k v) k = some v := by
  induction b with
  | nil => simp [dictInsert, AddressBook.find]
  | cons hd t ih =>
    cases hd with
    | mk k0 v0 =>
      unfold dictInsert
      by_cases hk : k0 = k
      · rw [if_pos hk]
        unfold AddressBook.find
        rw [if_pos hk]
      · rw [if_neg hk]
        unfold AddressBook.find
        rw [if_neg hk]
        exact ih

/-- Lookup of a different key is unaffected by assignment. -/
theorem find_dictInsert_ne (b : AddressBook) (k : String) (v : Record)
    (x : String) (hx : x ≠ k) :
    AddressBook.find (dictInsert b k v) x = AddressBook.find b x := by
  induction b with
  | nil =>
    unfold dictInsert AddressBook.find
    rw [if_neg (fun h => hx h.symm)]
    rfl
  | cons hd t ih =>
    cases hd with
    | mk k0 v0 =>
      unfold dictInsert
      by_cases hk : k0 = k
      · rw [if_pos hk]
        unfold AddressBook.find
        rw [if_neg (by rw [hk]; exact fun h => hx h.symm),
            if_neg (by rw [hk]; exact fun h => hx h.symm)]
      · rw [if_neg hk]
        unfold AddressBook.find
        by_cases hx0 : k0 = x
        · rw [if_pos hx0, if_pos hx0]
        · rw [if_neg hx0, if_neg hx0]
          exact ih

/-- Combined invariant of reachable books: every entry's record name equals
its key, and every key is strip-fixed. -/
theorem reachableBook_inv (b : AddressBook) (h : ReachableBook b) :
    ∀ p ∈ b, p.2.name = p.1 ∧ pyStrip p.1 = p.1 := by
  induction h with
  | empty => intro p hp; exact absurd hp (by simp)
  | add_record b r hb hr ih =>
    intro p hp
    unfold AddressBook.add_record at hp
    rcases mem_dictInsert b r.name r p hp with h1 | h1
    · subst h1
      exact ⟨rfl, reachableRec_name_stripped r hr⟩
    · exact ih p h1
  | delete b name hb ih =>
    intro p hp
    unfold AddressBook.delete at hp
    cases hf : AddressBook.find b name with
    | none =>
      rw [hf] at hp
      exact ih p hp
    | some v =>
      rw [hf] at hp
      exact ih p (mem_dictRemove b name p hp)
  | mutate b name r r1 hb hf hs ih =>
    intro p hp
    rcases mem_dictSet b name r1 p hp with h1 | ⟨h1, w, hw⟩
    · exact ih p h1
    · subst h1
      have hr := ih (name, r) (find_some_mem b name r hf)
      refine ⟨?_, hr.2⟩
      show r1.name = name
      rw [recStep_name r r1 hs]
      exact hr.1

/-- Claim C9: in every directory reachable from the empty book by
`add_record`, `delete`, and record mutation through `find`, every stored
record's name equals the key it is stored under. -/
theorem reachable_name_matches_key (b : AddressBook) (h : ReachableBook b) :
    ∀ k r, (k, r) ∈ b → r.name = k :=
  fun k r hm => ((reachableBook_inv b h) (k, r) hm).1

/-- Witness for `reachable_name_matches_key` on a one-step reachable book. -/
theorem reachable_name_matches_key_witness :
    (Record.mk "John" [] none).name = "John" :=
  reachable_name_matches_key [("John", ⟨"John", [], none⟩)]
    (ReachableBook.add_record [] ⟨"John", [], none⟩ ReachableBook.empty
      (ReachableRec.create "John" ⟨"John", [], none⟩ rfl))
    "John" ⟨"John", [], none⟩ (List.mem_singleton.mpr rfl)

/-- Claim C10: a raw name that is non-empty after trimming but carries
surrounding whitespace produces a record stored under the TRIMMED name:
`find` under the trimmed name returns the record, `find` under the original
raw string returns absent (in any reachable directory, whose keys are all
strip-fixed). -/
theorem untrimmed_name_stored_trimmed (b : AddressBook) (raw : String)
    (hb : ReachableBook b) (hdiff : pyStrip raw ≠ raw)
    (hne : pyStrip raw ≠ "") :
    Record.create raw = .ok ⟨pyStrip raw, [], none⟩ ∧
    AddressBook.find (AddressBook.add_record b ⟨pyStrip raw, [], none⟩)
      (pyStrip raw) = some ⟨pyStrip raw, [], none⟩ ∧
    AddressBook.find (AddressBook.add_record b ⟨pyStrip raw, [], none⟩)
      raw = none := by
  refine ⟨?_, ?_, ?_⟩
  · unfold Record.create Name.init
    rw [if_neg (by
      push_neg
      refine ⟨?_, hne⟩
      intro hraw
      exact hdiff (by rw [hraw]; rfl))]
  · unfold AddressBook.add_record
    exact find_dictInsert_self b (pyStrip raw) _
  · unfold AddressBook.add_record
    rw [find_dictInsert_ne b (pyStrip raw) _ raw (fun h => hdiff h.symm)]
    rw [find_eq_none_iff]
    intro p hp hk
    have hstrip := (reachableBook_inv b hb p hp).2
    rw [hk] at hstrip
    exact hdiff hstrip

/-- Witness for `untrimmed_name_stored_trimmed` at a concrete padded name. -/
theorem untrimmed_name_stored_trimmed_witness :
    Record.create " Ann " = .ok ⟨pyStrip " Ann ", [], none⟩ ∧
    AddressBook.find (AddressBook.add_record [] ⟨pyStrip " Ann ", [], none⟩)
      (pyStrip " Ann ") = some ⟨pyStrip " Ann ", [], none⟩ ∧
    AddressBook.find (AddressBook.add_record [] ⟨pyStrip " Ann ", [], none⟩)
      " Ann " = none :=
  untrimmed_name_stored_trimmed [] " Ann " ReachableBook.empty
    (by decide) (by decide)
